import Mathlib

/-
  Shallow embedding of the agent core of yt-agentic-rag
  (app/agents/orchestrator.py, app/agents/tools/base.py,
  app/agents/tools/email_tool.py).

  External collaborators (embedding service, vector search, the LLM
  providers, json parsing of provider-supplied argument strings, the tool
  registry dispatch, the Gmail transport) are modelled as oracle fields of
  an `Env` record / explicit outcome parameters: each can either return a
  value or raise (`Except String`).  Everything else is translated
  directly from the Python source.
-/

namespace ARag

/-- Abstract JSON-ish values, enough to model the mappings the tools build. -/
inductive JsonVal where
  | str (s : String)
  | arr (xs : List String)
deriving DecidableEq

/-- A JSON object / Python dict, as an association list. -/
abbrev JsonMap := List (String × JsonVal)

def dumpsVal : JsonVal → String
  | .str s => "\"" ++ s ++ "\""
  | .arr xs => "[" ++ String.intercalate ", " (xs.map (fun s => "\"" ++ s ++ "\"")) ++ "]"

/-- Stand-in for `json.dumps` on an object (an external library function). -/
def dumpsMap (m : JsonMap) : String :=
  "\x7b" ++ String.intercalate ", " (m.map (fun p => "\"" ++ p.1 ++ "\": " ++ dumpsVal p.2)) ++ "\x7d"

/-- One row returned by the vector search (`chunk_id`, `text`, `source`);
the float `similarity` field is never read by the orchestrator and is omitted. -/
structure RagBlock where
  chunk_id : String
  text : String
  source : String
deriving DecidableEq

/-- `base_id = chunk_id.split('#')[0] if '#' in chunk_id else chunk_id`
(orchestrator.py line 231), written over the character list so that it
evaluates by kernel reduction. -/
def baseId (chunk_id : String) : String :=
  if chunk_id.data.contains '#' then String.mk (chunk_id.data.takeWhile (fun c => c ≠ '#'))
  else chunk_id

/-- The dedup walk of `_get_rag_context` (orchestrator.py lines 225-239):
`seen` is the `seen_prefixes` set, `acc` the `context_blocks` list; after
each candidate the loop breaks once `len(context_blocks) >= 4`. -/
def mmrAux : List RagBlock → List String → List RagBlock → List RagBlock
  | [], _, acc => acc
  | r :: rest, seen, acc =>
    let b := baseId r.chunk_id
    if seen.contains b then
      if 4 ≤ acc.length then acc else mmrAux rest seen acc
    else
      if 4 ≤ (acc ++ [r]).length then acc ++ [r]
      else mmrAux rest (b :: seen) (acc ++ [r])

/-- The pure part of `_get_rag_context`: dedup-and-cap over the search rows. -/
def assembleContext (results : List RagBlock) : List RagBlock :=
  mmrAux results [] []

/-- Claim-side definition, following the claim's words only: an
order-preserving subsequence in which a candidate is skipped exactly when
its base prefix was already accepted (no cap inside the walk). -/
def dedupAllAux : List RagBlock → List String → List RagBlock
  | [], _ => []
  | r :: rest, seen =>
    let b := baseId r.chunk_id
    if seen.contains b then dedupAllAux rest seen
    else r :: dedupAllAux rest (b :: seen)

/-- Claim-side Context Assembler: full dedup by base prefix, no cap. -/
def claimAssemble (results : List RagBlock) : List RagBlock :=
  dedupAllAux results []

/-- Scanner for `re.findall(r'\[([^\]]+)\]', text)`: left-to-right
non-overlapping matches; a match is `[`, a maximal nonempty run of
non-`]` characters, then `]`; on failure the scan resumes one character
later.  `fuel` (one unit per consumed character, at least the list
length) makes the recursion structural, so it reduces in the kernel. -/
def btGo : Nat → List Char → List String
  | 0, _ => []
  | _ + 1, [] => []
  | fuel + 1, c :: rest =>
    if c = '[' then
      let run := rest.takeWhile (fun d => d ≠ ']')
      let after := rest.drop run.length
      if run.isEmpty then btGo fuel rest
      else if after.head? = some ']' then String.mk run :: btGo fuel after.tail
      else btGo fuel rest
    else btGo fuel rest

/-- All bracket-delimited tokens of the text, in scan order. -/
def bracketTokens (l : List Char) : List String :=
  btGo l.length l

/-- The dedup loop of `_extract_citations` (lines 488-491): `unique` is the
accumulator, appended to when the citation is not yet present. -/
def dedupFirstAux : List String → List String → List String
  | [], acc => acc
  | c :: rest, acc =>
    if acc.contains c then dedupFirstAux rest acc
    else dedupFirstAux rest (acc ++ [c])

/-- `_extract_citations` (orchestrator.py lines 459-493). -/
def extract_citations (text : String) (context_blocks : List RagBlock) : List String :=
  let found_citations := bracketTokens text.data
  let valid_citations :=
    found_citations.filter (fun cite => context_blocks.any (fun b => b.chunk_id = cite))
  dedupFirstAux valid_citations []

/-- Claim-side first-occurrence dedup: keep the first occurrence of each
element, in order. -/
def firstDedup : List String → List String
  | [] => []
  | a :: rest => a :: firstDedup (rest.filter (fun x => x ≠ a))
termination_by l => l.length
decreasing_by
  have := List.length_filter_le (fun x => x ≠ a) rest
  simp only [List.length_cons]
  omega

/-- Message dicts built by the orchestrator; optional keys are `Option`. -/
structure Msg where
  role : String
  content : Option String
  tool_calls : Option (List (String × String × String))
  tool_call_id : Option String
deriving DecidableEq

/-- A caller-supplied history entry (`Dict[str, str]`, read with `.get`). -/
structure ChatMsg where
  role : Option String
  content : Option String
deriving DecidableEq

/-- `{'name': ..., 'arguments': ...}` of a provider tool call. -/
structure FunctionSpec where
  name : String
  arguments : String
deriving DecidableEq

/-- One provider tool call: `{'id': ..., 'function': {...}}`. -/
structure ToolCall where
  id : String
  function : FunctionSpec
deriving DecidableEq

/-- Adapter output: `{'content': ..., 'tool_calls': ...}`;
`content` is `none` when the provider sent Python `None`. -/
structure LLMResponse where
  content : Option String
  tool_calls : Option (List ToolCall)
deriving DecidableEq

/-- The registry's result dict `{success, result|null, error|null}`
(BaseTool's response shape). -/
structure ToolResponse where
  success : Bool
  result : Option JsonMap
  error : Option String
deriving DecidableEq

/-- Entry of `tool_calls_made` (orchestrator.py lines 125-129). -/
structure ToolCallRec where
  tool_name : String
  arguments : JsonMap
  call_id : String
deriving DecidableEq

/-- Entry of `tool_results` (lines 136-140): `call_id`, `tool_name` and the
spread registry result dict. -/
structure ToolResultRec where
  call_id : String
  tool_name : String
  outcome : ToolResponse
deriving DecidableEq

/-- The `debug` mapping of the returned dict; `latency_ms` (wall-clock
time) is not modelled. -/
structure DebugInfo where
  rag_context_used : Bool
  rag_chunk_ids : List String
  tools_called : List String
  iterations : Nat
  error : Option String
deriving DecidableEq

/-- The dict returned by `process_query`. -/
structure AgentResult where
  text : String
  tool_calls : List ToolCallRec
  tool_results : List ToolResultRec
  citations : List String
  debug : DebugInfo
deriving DecidableEq

/-- Stand-in for `json.dumps` on the registry result dict. -/
def dumpsResp (r : ToolResponse) : String :=
  "\x7b\"success\": " ++ (if r.success then "true" else "false") ++
  ", \"result\": " ++ (match r.result with | none => "null" | some m => dumpsMap m) ++
  ", \"error\": " ++ (match r.error with | none => "null" | some e => "\"" ++ e ++ "\"") ++ "\x7d"

/-- The external world of one run.  `embed`/`vectorSearch`/`llm`/`execTool`
can each raise; `llm` is indexed by the number of provider calls already
made (external nondeterminism as an oracle stream); `parseJson` models
`json.loads` on a provider-supplied arguments string. -/
structure Env where
  embed : String → Except String Nat
  vectorSearch : Nat → Nat → Except String (List RagBlock)
  llm : Nat → Except String LLMResponse
  execTool : String → JsonMap → Except String ToolResponse
  parseJson : String → Except String JsonMap
  currentDate : String
  currentYear : String
  corpEmail : String

/-- `_get_rag_context` (lines 202-246): embed, search, dedup; any raise
from the externals is caught and becomes the empty list. -/
def get_rag_context (env : Env) (query : String) (top_k : Nat) : List RagBlock :=
  match env.embed query with
  | .error _ => []
  | .ok v =>
    match env.vectorSearch v top_k with
    | .error _ => []
    | .ok search_results => assembleContext search_results

def noContextMarker : String := "No relevant context found in knowledge base."

/-- `context_parts` (lines 266-270): each block rendered `[chunk_id] text`. -/
def context_parts (rag_context : List RagBlock) : List String :=
  rag_context.map (fun b => "[" ++ b.chunk_id ++ "] " ++ b.text)

/-- `context_str` (line 272). -/
def context_str (rag_context : List RagBlock) : String :=
  let parts := context_parts rag_context
  if parts.isEmpty then noContextMarker else String.intercalate "\n\n" parts

def promptSeg1 : String := "You are an intelligent AI assistant with access to both a knowledge base and action tools.\n\n## IMPORTANT: Current Date Information\nToday's date is: "

def promptSeg2 : String := "\nCurrent year is: "

def promptSeg3 : String := "\nWhen scheduling events, ALWAYS use the current year ("

def promptSeg4 : String := ") or future dates. Never use past dates.\n\n## Your Capabilities:\n\n1. **Knowledge Base (RAG)**: You have access to retrieved context from our database. Use it to answer questions about policies, procedures, scheduling rules, and other information.\n\n2. **Tools**: You can take real actions:\n   - `create_calendar_event`: Schedule meetings on Google Calendar\n   - `send_email`: Send emails via Gmail\n\n## Retrieved Context from Knowledge Base:\n"

def promptSeg5 : String := "\n\n## Instructions:\n\n1. **For informational questions** (about policies, returns, shipping, scheduling rules, etc.):\n   - Answer using the retrieved context above\n   - Include citations in format [chunk_id] when referencing information\n   - If context doesn't contain relevant info, say so\n\n2. **For action requests** (schedule meeting, send email, etc.):\n   - Use the appropriate tool\n   - If RAG context contains relevant info (e.g., default meeting duration), USE IT\n   - If missing required info (date, time, email), ASK the user\n   - ALWAYS use the current year ("

def promptSeg6 : String := ") for dates\n\n3. **After executing a tool**:\n   - Confirm the action with relevant details\n   - Include any important information (event link, meeting time, etc.)\n\n## Important Guidelines:\n- Always check if RAG context is relevant before using it\n- Include citations [chunk_id] when referencing knowledge base information\n- For scheduling: Check context for default durations (e.g., \"standard consultation = 30 minutes\")\n- Be concise, professional, and helpful\n- Corporate email for sending: "

/-- The f-string system prompt (lines 280-320), with its four
interpolations (`current_date`, `current_year` three times, `context_str`,
the corporate email) made explicit. -/
def system_prompt (date year email ctx : String) : String :=
  promptSeg1 ++ date ++ promptSeg2 ++ year ++ promptSeg3 ++ year ++ promptSeg4 ++
    ctx ++ promptSeg5 ++ year ++ promptSeg6 ++ email

/-- One history dict converted by lines 327-331, with the `.get` defaults. -/
def convHist (m : ChatMsg) : Msg :=
  { role := m.role.getD "user", content := some (m.content.getD ""),
    tool_calls := none, tool_call_id := none }

/-- `_build_initial_messages` (lines 248-336). -/
def build_initial_messages (date year email query : String)
    (rag_context : List RagBlock) (chat_history : Option (List ChatMsg)) : List Msg :=
  let sys : Msg :=
    { role := "system",
      content := some (system_prompt date year email (context_str rag_context)),
      tool_calls := none, tool_call_id := none }
  let hist : List Msg :=
    match chat_history with
    | none => []
    | some h => h.map convHist
  (sys :: hist) ++ [{ role := "user", content := some query,
                      tool_calls := none, tool_call_id := none }]

/-- The assistant message appended at lines 144-152. -/
def assistantToolMsg (tc : ToolCall) : Msg :=
  { role := "assistant", content := none,
    tool_calls := some [(tc.id, tc.function.name, tc.function.arguments)],
    tool_call_id := none }

/-- The tool-role message appended at lines 155-159. -/
def toolResultMsg (callId : String) (r : ToolResponse) : Msg :=
  { role := "tool", content := some (dumpsResp r),
    tool_calls := none, tool_call_id := some callId }

/-- Outcome of the reasoning loop: `done` carries `final_response` (still
`None` when the fuel ran out) and the value of `iteration`; `fault` carries
the raised message and the value of `iteration` when the exception
happened (the number of CALLING states entered). -/
inductive LoopOut where
  | done (finalResponse : Option String) (iteration : Nat)
      (calls : List ToolCallRec) (results : List ToolResultRec)
  | fault (err : String) (iteration : Nat)
      (calls : List ToolCallRec) (results : List ToolResultRec)
deriving DecidableEq

/-- The per-turn tool execution loop (lines 120-159).  An error from
`json.loads` or from the registry propagates together with the lists
accumulated so far (they are outer mutable state in the Python code). -/
def execCalls (env : Env) :
    List ToolCall → List ToolCallRec → List ToolResultRec → List Msg →
    Except (String × List ToolCallRec × List ToolResultRec)
      (List ToolCallRec × List ToolResultRec × List Msg)
  | [], calls, results, msgs => .ok (calls, results, msgs)
  | tc :: rest, calls, results, msgs =>
    match env.parseJson tc.function.arguments with
    | .error e => .error (e, calls, results)
    | .ok tool_args =>
      let calls2 := calls ++ [⟨tc.function.name, tool_args, tc.id⟩]
      match env.execTool tc.function.name tool_args with
      | .error e => .error (e, calls2, results)
      | .ok result =>
        let results2 := results ++ [⟨tc.id, tc.function.name, result⟩]
        let msgs2 := msgs ++ [assistantToolMsg tc, toolResultMsg tc.id result]
        execCalls env rest calls2 results2 msgs2

/-- The `while iteration < max_iterations` loop (lines 107-163); `fuel` is
`max_iterations - iteration`.  A response whose `tool_calls` is `None` or
the empty list (both falsy in Python) ends the loop with its content. -/
def agentLoop (env : Env) :
    Nat → Nat → List Msg → List ToolCallRec → List ToolResultRec → LoopOut
  | 0, iteration, _msgs, calls, results => .done none iteration calls results
  | fuel + 1, iteration, msgs, calls, results =>
    match env.llm iteration with
    | .error e => .fault e (iteration + 1) calls results
    | .ok response =>
      match response.tool_calls with
      | some (tc :: tcs) =>
        match execCalls env (tc :: tcs) calls results msgs with
        | .error (e, calls2, results2) => .fault e (iteration + 1) calls2 results2
        | .ok (calls2, results2, msgs2) =>
          agentLoop env fuel (iteration + 1) msgs2 calls2 results2
      | _ => .done response.content (iteration + 1) calls results

/-- The loop part of `process_query`, after retrieval and prompting. -/
def process_queryRun (env : Env) (query : String)
    (chat_history : Option (List ChatMsg)) (top_k max_iterations : Nat) : LoopOut :=
  agentLoop env max_iterations 0
    (build_initial_messages env.currentDate env.currentYear env.corpEmail query
      (get_rag_context env query top_k) chat_history)
    [] []

/-- Python `final_response or default` (truthiness of strings). -/
def pyOr (o : Option String) (default : String) : String :=
  match o with
  | none => default
  | some s => if s = "" then default else s

def fallbackText : String := "I processed your request."

def errorTextHead : String := "I encountered an error processing your request: "

/-- `process_query` (lines 68-200).  `get_rag_context` is pure, so reusing
it in both branches equals the single Python computation. -/
def process_query (env : Env) (query : String)
    (chat_history : Option (List ChatMsg)) (top_k max_iterations : Nat) : AgentResult :=
  let rag_context := get_rag_context env query top_k
  match process_queryRun env query chat_history top_k max_iterations with
  | .done final_response iteration tool_calls_made tool_results =>
    { text := pyOr final_response fallbackText
      tool_calls := tool_calls_made
      tool_results := tool_results
      citations := extract_citations (pyOr final_response "") rag_context
      debug :=
        { rag_context_used := decide (0 < rag_context.length)
          rag_chunk_ids := rag_context.map (fun c => c.chunk_id)
          tools_called := tool_calls_made.map (fun t => t.tool_name)
          iterations := iteration
          error := none } }
  | .fault e _iteration tool_calls_made tool_results =>
    { text := errorTextHead ++ e
      tool_calls := tool_calls_made
      tool_results := tool_results
      citations := []
      debug :=
        { rag_context_used := false
          rag_chunk_ids := []
          tools_called := tool_calls_made.map (fun t => t.tool_name)
          iterations := 0
          error := some e } }

/-- The number of CALLING states entered during the run (instrumentation
of the trace, read off the loop outcome). -/
def callingCount (env : Env) (query : String)
    (chat_history : Option (List ChatMsg)) (top_k max_iterations : Nat) : Nat :=
  match process_queryRun env query chat_history top_k max_iterations with
  | .done _ iteration _ _ => iteration
  | .fault _ iteration _ _ => iteration

/-- `BaseTool._success_response` (base.py lines 110-124). -/
def success_response (result : JsonMap) : ToolResponse :=
  { success := true, result := some result, error := none }

/-- `BaseTool._error_response` (base.py lines 126-141). -/
def error_response (error : String) : ToolResponse :=
  { success := false, result := none, error := some error }

/-- `BaseTool.validate_params` (base.py lines 82-108): a parameter is
missing when its key is absent or its value is `None`. -/
def validate_params (required : List String)
    (provided : List (String × Option String)) : Bool × List String :=
  let missing := required.filter (fun param =>
    match provided.lookup param with
    | some (some _) => false
    | _ => true)
  if missing.isEmpty then (true, []) else (false, missing)

/-- Conclusion of the external Gmail interaction inside
`EmailTool.execute`'s `try` block: a sent message, or one of the three
caught exception classes (`ImportError`, `HttpError`, any other
`Exception` — the latter also covers a raise out of `_get_service`). -/
inductive GmailOutcome where
  | sent (message_id thread_id : String) (labels : List String)
  | importErr (msg : String)
  | httpErr (msg : String)
  | otherErr (msg : String)
deriving DecidableEq

/-- `EmailTool.execute` (email_tool.py lines 113-200); `to`, `subject`,
`body` are `None`-able arguments, `gmail` the outcome of the external
send, `fromEmail` the configured corporate address. -/
def email_execute (toAddr subject body : Option String)
    (gmail : GmailOutcome) (fromEmail : String) : ToolResponse :=
  let v := validate_params ["to", "subject", "body"]
    [("to", toAddr), ("subject", subject), ("body", body)]
  if !v.1 then
    error_response ("Missing required parameters: " ++ String.intercalate ", " v.2)
  else
    match gmail with
    | .sent message_id thread_id labels =>
      success_response
        [("message_id", .str message_id), ("thread_id", .str thread_id),
         ("to", .str (toAddr.getD "")), ("subject", .str (subject.getD "")),
         ("from", .str fromEmail), ("labels", .arr labels)]
    | .importErr m =>
      error_response ("Google API packages not installed. Run: pip install google-api-python-client google-auth. Error: " ++ m)
    | .httpErr m =>
      error_response ("Gmail API error: " ++ m)
    | .otherErr m =>
      error_response ("Failed to send email: " ++ m)

/-- A block of an Anthropic response's `content` list; block types other
than `text` and `tool_use` are represented by `other` (skipped by the
parsing loop). -/
inductive ABlock where
  | text (s : String)
  | tool_use (id name : String) (input : JsonMap)
  | other
deriving DecidableEq

/-- The block-scanning loop of `_call_anthropic` (lines 439-452):
`content` starts as `""` and is overwritten by each text block;
`tool_calls` accumulates the tool_use blocks in order. -/
def anthropicGo : List ABlock → String → List ToolCall → LLMResponse
  | [], content, tool_calls =>
    { content := some content
      tool_calls := if tool_calls.isEmpty then none else some tool_calls }
  | b :: rest, content, tool_calls =>
    match b with
    | .text s => anthropicGo rest s tool_calls
    | .tool_use id name input =>
      anthropicGo rest content (tool_calls ++ [⟨id, ⟨name, dumpsMap input⟩⟩])
    | .other => anthropicGo rest content tool_calls

/-- Response construction of `_call_anthropic` (lines 438-457). -/
def anthropicParse (blocks : List ABlock) : LLMResponse :=
  anthropicGo blocks "" []

/-- The content strings of the text-typed blocks, in order. -/
def textsOf (blocks : List ABlock) : List String :=
  blocks.filterMap (fun b => match b with | .text s => some s | _ => none)

/-- The tool calls built from the action-typed (`tool_use`) blocks, in order. -/
def anthropicToolCalls (blocks : List ABlock) : List ToolCall :=
  blocks.filterMap (fun b => match b with
    | .tool_use id name input => some ⟨id, ⟨name, dumpsMap input⟩⟩
    | _ => none)

/-- The system-splitting loop of `_call_anthropic` (lines 409-417):
`system_content` keeps the last system message's content, every other
message is forwarded. -/
def anthropicSplit : List Msg → String → String × List Msg
  | [], system_content => (system_content, [])
  | m :: rest, system_content =>
    if m.role = "system" then anthropicSplit rest (m.content.getD "")
    else
      let (s, tail) := anthropicSplit rest system_content
      (s, m :: tail)

/-! ## Theorems -/

/-- The ToolOutcome mutual-exclusivity invariant of the spec (§3). -/
def exclusiveOutcome (r : ToolResponse) : Prop :=
  (r.success = true ∧ (∃ m, r.result = some m) ∧ r.error = none) ∨
  (r.success = false ∧ r.result = none ∧ ∃ e, r.error = some e)

/-- C8: every response produced through BaseTool's success/error
constructors — in particular EmailTool.execute on each of its branches
(missing parameters, successful send, ImportError, HttpError, generic
exception) — satisfies the ToolOutcome mutual-exclusivity invariant:
success implies a present result mapping and a null error, failure
implies a null result and a present error string. -/
theorem C8_tool_outcome_exclusive :
    (∀ (toAddr subject body : Option String) (gmail : GmailOutcome) (fromEmail : String),
      exclusiveOutcome (email_execute toAddr subject body gmail fromEmail)) ∧
    (∀ m : JsonMap, exclusiveOutcome (success_response m)) ∧
    (∀ e : String, exclusiveOutcome (error_response e)) := by
  refine ⟨?_, ?_, ?_⟩
  · intro toAddr subject body gmail fromEmail
    by_cases h : (validate_params ["to", "subject", "body"]
        [("to", toAddr), ("subject", subject), ("body", body)]).1 <;>
      cases gmail <;>
      simp [email_execute, h, error_response, success_response, exclusiveOutcome]
  · exact fun m => Or.inl ⟨rfl, ⟨m, rfl⟩, rfl⟩
  · exact fun e => Or.inr ⟨rfl, rfl, e, rfl⟩

lemma anthropicGo_content (blocks : List ABlock) :
    ∀ c tcs, (anthropicGo blocks c tcs).content = some ((textsOf blocks).getLastD c) := by
  induction blocks with
  | nil => intro c tcs; rfl
  | cons b rest ih =>
    intro c tcs
    cases b with
    | text s =>
      have h1 : textsOf (ABlock.text s :: rest) = s :: textsOf rest := by
        simp [textsOf]
      rw [show anthropicGo (ABlock.text s :: rest) c tcs = anthropicGo rest s tcs from rfl,
        ih, h1, List.getLastD_cons]
    | tool_use id name input =>
      have h1 : textsOf (ABlock.tool_use id name input :: rest) = textsOf rest := by
        simp [textsOf]
      rw [show anthropicGo (ABlock.tool_use id name input :: rest) c tcs =
            anthropicGo rest c (tcs ++ [⟨id, ⟨name, dumpsMap input⟩⟩]) from rfl,
        ih, h1]
    | other =>
      have h1 : textsOf (ABlock.other :: rest) = textsOf rest := by simp [textsOf]
      rw [show anthropicGo (ABlock.other :: rest) c tcs = anthropicGo rest c tcs from rfl,
        ih, h1]

lemma anthropicGo_tools (blocks : List ABlock) :
    ∀ c tcs, (anthropicGo blocks c tcs).tool_calls =
      (if (tcs ++ anthropicToolCalls blocks).isEmpty then none
       else some (tcs ++ anthropicToolCalls blocks)) := by
  induction blocks with
  | nil => intro c tcs; simp [anthropicGo, anthropicToolCalls]
  | cons b rest ih =>
    intro c tcs
    cases b with
    | text s =>
      have h1 : anthropicToolCalls (ABlock.text s :: rest) = anthropicToolCalls rest := by
        simp [anthropicToolCalls]
      rw [show anthropicGo (ABlock.text s :: rest) c tcs = anthropicGo rest s tcs from rfl,
        ih, h1]
    | tool_use id name input =>
      have h1 : anthropicToolCalls (ABlock.tool_use id name input :: rest) =
          ⟨id, ⟨name, dumpsMap input⟩⟩ :: anthropicToolCalls rest := by
        simp [anthropicToolCalls]
      rw [show anthropicGo (ABlock.tool_use id name input :: rest) c tcs =
            anthropicGo rest c (tcs ++ [⟨id, ⟨name, dumpsMap input⟩⟩]) from rfl,
        ih, h1, List.append_assoc]
      rfl
    | other =>
      have h1 : anthropicToolCalls (ABlock.other :: rest) = anthropicToolCalls rest := by
        simp [anthropicToolCalls]
      rw [show anthropicGo (ABlock.other :: rest) c tcs = anthropicGo rest c tcs from rfl,
        ih, h1]

/-- C10: in the Anthropic adapter's response parsing, each text-typed block
overwrites the accumulated text, so when the text blocks are `l ++ [s]`
the returned content is `s` alone; and when there is no tool_use block,
the returned tool_calls is None, the content being the empty string when
no text block is present either. -/
theorem C10_anthropic_last_text :
    ∀ blocks : List ABlock,
      (∀ (l : List String) (s : String), textsOf blocks = l ++ [s] →
        (anthropicParse blocks).content = some s) ∧
      (anthropicToolCalls blocks = [] →
        (anthropicParse blocks).tool_calls = none ∧
        (textsOf blocks = [] → (anthropicParse blocks).content = some "")) := by
  intro blocks
  constructor
  · intro l s h
    rw [anthropicParse, anthropicGo_content, h, List.getLastD_concat]
  · intro h
    constructor
    · rw [anthropicParse, anthropicGo_tools, h]
      simp
    · intro ht
      rw [anthropicParse, anthropicGo_content, ht]
      rfl

/-- C10 witness: a block list with two text blocks yields the last text
only, and a block list with no tool_use block yields None tool calls. -/
theorem C10_anthropic_last_text_witness :
    (anthropicParse [.text "first", .text "second"]).content = some "second" ∧
    (anthropicParse [.text "only"]).tool_calls = none :=
  ⟨(C10_anthropic_last_text [.text "first", .text "second"]).1 ["first"] "second" rfl,
   ((C10_anthropic_last_text [.text "only"]).2 rfl).1⟩

lemma mem_firstDedup : ∀ (l : List String) (x : String), x ∈ firstDedup l ↔ x ∈ l := by
  intro l
  induction l using firstDedup.induct with
  | case1 => intro x; rw [firstDedup]
  | case2 a rest ih =>
    intro x
    rw [firstDedup]
    by_cases hxa : x = a
    · simp [hxa]
    · simp only [List.mem_cons, ih, List.mem_filter]
      simp [hxa]

lemma nodup_firstDedup : ∀ l : List String, (firstDedup l).Nodup := by
  intro l
  induction l using firstDedup.induct with
  | case1 => rw [firstDedup]; exact List.nodup_nil
  | case2 a rest ih =>
    rw [firstDedup]
    refine List.Nodup.cons ?_ ih
    intro hmem
    have := (mem_firstDedup _ _).1 hmem
    simp [List.mem_filter] at this

lemma dedupFirstAux_eq :
    ∀ (l acc : List String),
      dedupFirstAux l acc = acc ++ firstDedup (l.filter (fun x => !acc.contains x)) := by
  intro l
  induction l with
  | nil => intro acc; simp [dedupFirstAux, firstDedup]
  | cons c rest ih =>
    intro acc
    by_cases h : acc.contains c = true
    · have hpc : (fun x => !acc.contains x) c = false := by simp_all
      rw [show dedupFirstAux (c :: rest) acc = dedupFirstAux rest acc from by
          rw [dedupFirstAux, if_pos h],
        ih, List.filter_cons_of_neg (by simpa using h)]
    · have hpc : (fun x => !acc.contains x) c = true := by simp_all
      rw [show dedupFirstAux (c :: rest) acc = dedupFirstAux rest (acc ++ [c]) from by
          rw [dedupFirstAux, if_neg h],
        ih, List.filter_cons_of_pos (by simpa using h)]
      rw [firstDedup, List.filter_filter]
      have hf : rest.filter (fun x => !(acc ++ [c]).contains x) =
          rest.filter (fun x => decide ¬x = c && !acc.contains x) := by
        refine List.filter_congr ?_
        intro x _
        by_cases hx : x = c <;> by_cases hax : x ∈ acc <;> simp [hx, hax]
      rw [hf]
      simp

/-- C6: the Citation Extractor returns exactly the bracket-delimited
tokens of the text that match a chunk_id of the supplied context, with
duplicates removed keeping first occurrences; unmatched bracketed tokens
are silently dropped, and the result is always a duplicate-free subset of
the context's chunk_ids. -/
theorem C6_citation_extraction :
    ∀ (text : String) (context_blocks : List RagBlock),
      extract_citations text context_blocks =
        firstDedup ((bracketTokens text.data).filter
          (fun cite => context_blocks.any (fun b => b.chunk_id = cite))) ∧
      (extract_citations text context_blocks).Nodup ∧
      (∀ cite ∈ extract_citations text context_blocks,
        ∃ b ∈ context_blocks, b.chunk_id = cite) := by
  intro t blocks
  have he : extract_citations t blocks =
      firstDedup ((bracketTokens t.data).filter
        (fun cite => blocks.any (fun b => b.chunk_id = cite))) := by
    rw [extract_citations, dedupFirstAux_eq]
    simp
  refine ⟨he, he ▸ nodup_firstDedup _, ?_⟩
  intro c hc
  rw [he] at hc
  have h1 := (mem_firstDedup _ _).1 hc
  have h2 := (List.mem_filter.1 h1).2
  simpa using h2

/-- C6 witness: on a text citing c1 twice, c2 once and one hallucinated
id, every extracted citation is a chunk_id of the supplied context. -/
theorem C6_citation_extraction_witness :
    ∃ b ∈ [RagBlock.mk "c1" "t" "s", RagBlock.mk "c2" "t" "s"], b.chunk_id = "c1" :=
  (C6_citation_extraction "See [c1] and [c2] plus [bogus] then [c1] again."
    [RagBlock.mk "c1" "t" "s", RagBlock.mk "c2" "t" "s"]).2.2 "c1" (by decide)

lemma mmrAux_take :
    ∀ (rs : List RagBlock) (seen : List String) (acc : List RagBlock),
      acc.length < 4 → mmrAux rs seen acc = (acc ++ dedupAllAux rs seen).take 4 := by
  intro rs
  induction rs with
  | nil =>
    intro seen acc h
    rw [mmrAux, dedupAllAux, List.append_nil]
    exact (List.take_of_length_le (by omega)).symm
  | cons r rest ih =>
    intro seen acc h
    by_cases hc : seen.contains (baseId r.chunk_id) = true
    · have e1 : mmrAux (r :: rest) seen acc = mmrAux rest seen acc := by
        simp only [mmrAux]
        rw [if_pos hc, if_neg (show ¬4 ≤ acc.length by omega)]
      have e2 : dedupAllAux (r :: rest) seen = dedupAllAux rest seen := by
        simp only [dedupAllAux]
        rw [if_pos hc]
      rw [e1, e2, ih _ _ h]
    · have e2 : dedupAllAux (r :: rest) seen =
          r :: dedupAllAux rest (baseId r.chunk_id :: seen) := by
        simp only [dedupAllAux]
        rw [if_neg hc]
      have eapp : acc ++ r :: dedupAllAux rest (baseId r.chunk_id :: seen) =
          (acc ++ [r]) ++ dedupAllAux rest (baseId r.chunk_id :: seen) := by simp
      by_cases h4 : 4 ≤ (acc ++ [r]).length
      · have e1 : mmrAux (r :: rest) seen acc = acc ++ [r] := by
          simp only [mmrAux]
          rw [if_neg hc, if_pos h4]
        have hlen : (acc ++ [r]).length = 4 := by
          simp only [List.length_append, List.length_cons, List.length_nil] at h4 ⊢
          omega
        rw [e1, e2, eapp, List.take_left' hlen]
      · have e1 : mmrAux (r :: rest) seen acc =
            mmrAux rest (baseId r.chunk_id :: seen) (acc ++ [r]) := by
          simp only [mmrAux]
          rw [if_neg hc, if_neg h4]
        rw [e1, ih _ _ (by omega), e2, eapp]

lemma dedupAllAux_sublist : ∀ (rs : List RagBlock) (seen : List String),
    (dedupAllAux rs seen).Sublist rs := by
  intro rs
  induction rs with
  | nil => intro seen; simp [dedupAllAux]
  | cons r rest ih =>
    intro seen
    simp only [dedupAllAux]
    by_cases hc : seen.contains (baseId r.chunk_id) = true
    · rw [if_pos hc]; exact (ih seen).cons r
    · rw [if_neg hc]; exact (ih _).cons₂ r

lemma dedupAllAux_base_not_seen :
    ∀ (rs : List RagBlock) (seen : List String) (r : RagBlock),
      r ∈ dedupAllAux rs seen → seen.contains (baseId r.chunk_id) = false := by
  intro rs
  induction rs with
  | nil => intro seen r h; simp [dedupAllAux] at h
  | cons q rest ih =>
    intro seen r h
    simp only [dedupAllAux] at h
    by_cases hc : seen.contains (baseId q.chunk_id) = true
    · rw [if_pos hc] at h; exact ih seen r h
    · rw [if_neg hc] at h
      rcases List.mem_cons.1 h with rfl | hm
      · simpa using hc
      · have h2 := ih _ r hm
        simp only [List.contains_cons] at h2
        simp only [Bool.or_eq_false_iff] at h2
        exact h2.2

lemma dedupAllAux_bases_nodup : ∀ (rs : List RagBlock) (seen : List String),
    ((dedupAllAux rs seen).map (fun r => baseId r.chunk_id)).Nodup := by
  intro rs
  induction rs with
  | nil => intro seen; simp [dedupAllAux]
  | cons q rest ih =>
    intro seen
    simp only [dedupAllAux]
    by_cases hc : seen.contains (baseId q.chunk_id) = true
    · rw [if_pos hc]; exact ih seen
    · rw [if_neg hc]
      simp only [List.map_cons]
      refine List.Nodup.cons ?_ (ih _)
      intro hmem
      rcases List.mem_map.1 hmem with ⟨r, hr, hbase⟩
      have h2 := dedupAllAux_base_not_seen rest _ r hr
      rw [List.contains_cons, hbase] at h2
      simp at h2

/-- C5 (amended): the Context Assembler returns the first at-most-4
blocks of the full dedup-by-base-prefix walk: at most 4 blocks, no two
returned blocks share a base prefix, and the result is an order-preserving
subsequence of the candidates; a candidate is skipped when its base
prefix was already accepted or when 4 blocks have already been accepted. -/
theorem C5_assembler_amended :
    ∀ rs : List RagBlock,
      assembleContext rs = (claimAssemble rs).take 4 ∧
      (assembleContext rs).length ≤ 4 ∧
      ((assembleContext rs).map (fun r => baseId r.chunk_id)).Nodup ∧
      (assembleContext rs).Sublist rs := by
  intro rs
  have he : assembleContext rs = (claimAssemble rs).take 4 := by
    rw [assembleContext, claimAssemble, mmrAux_take rs [] [] (by simp)]
    simp
  refine ⟨he, ?_, ?_, ?_⟩
  · rw [he, List.length_take]
    exact min_le_left _ _
  · rw [he]
    exact List.Nodup.sublist (List.Sublist.map _ (List.take_sublist _ _))
      (dedupAllAux_bases_nodup rs [])
  · rw [he]
    exact (List.take_sublist _ _).trans (dedupAllAux_sublist rs [])

/-- Five candidates with pairwise distinct base prefixes. -/
def c5Input : List RagBlock :=
  [⟨"a", "", ""⟩, ⟨"b", "", ""⟩, ⟨"c", "", ""⟩, ⟨"d", "", ""⟩, ⟨"e", "", ""⟩]

/-- C5 counterexample: on five candidates with distinct base prefixes the
assembler is not the claimed skip-exactly-when-prefix-was-accepted walk:
the fifth candidate is dropped although its base prefix was never
accepted (the 4-block cap, not prefix dedup, removed it). -/
theorem C5_assembler_counterexample :
    assembleContext c5Input ≠ claimAssemble c5Input ∧
    RagBlock.mk "e" "" "" ∈ c5Input ∧
    RagBlock.mk "e" "" "" ∉ assembleContext c5Input ∧
    baseId "e" ∉ (assembleContext c5Input).map (fun r => baseId r.chunk_id) := by
  decide

def defaultMsg : Msg := { role := "", content := none, tool_calls := none, tool_call_id := none }

def defaultChat : ChatMsg := { role := none, content := none }

lemma build_getD_succ (date year email query : String) (rag_context : List RagBlock)
    (h : List ChatMsg) (i : Nat) (hi : i < h.length) :
    (build_initial_messages date year email query rag_context (some h)).getD (i + 1) defaultMsg =
      convHist (h.getD i defaultChat) := by
  unfold build_initial_messages
  rw [List.cons_append, List.getD_cons_succ, List.getD_eq_getElem?_getD,
    List.getElem?_append, if_pos (show i < (h.map convHist).length by simpa using hi),
    List.getElem?_map, List.getElem?_eq_getElem hi]
  rw [List.getD_eq_getElem _ _ hi]
  rfl

/-- C9: the Prompt Builder returns a list whose first element has role
system; the history messages follow immediately after the system message,
in caller order, none dropped (length is history length plus two) and
with a present role preserved; the final element is a user message whose
content is exactly the query; and on an empty context list the system
message's content is the prompt with the literal no-relevant-context
marker in place of the rendered context section. -/
theorem C9_prompt_builder :
    ∀ (date year email query : String) (rag_context : List RagBlock) (h : List ChatMsg),
      (build_initial_messages date year email query rag_context (some h)).length = h.length + 2 ∧
      ((build_initial_messages date year email query rag_context (some h)).getD 0 defaultMsg).role = "system" ∧
      (∀ i, i < h.length →
        (build_initial_messages date year email query rag_context (some h)).getD (i + 1) defaultMsg =
          convHist (h.getD i defaultChat)) ∧
      (∀ i r, i < h.length → (h.getD i defaultChat).role = some r →
        ((build_initial_messages date year email query rag_context (some h)).getD (i + 1) defaultMsg).role = r) ∧
      (build_initial_messages date year email query rag_context (some h)).getLastD defaultMsg =
        { role := "user", content := some query, tool_calls := none, tool_call_id := none } ∧
      (rag_context = [] →
        ((build_initial_messages date year email query rag_context (some h)).getD 0 defaultMsg).content =
          some (system_prompt date year email noContextMarker)) := by
  intro date year email query rag_context h
  refine ⟨?_, rfl, ?_, ?_, ?_, ?_⟩
  · unfold build_initial_messages
    simp only [List.cons_append, List.length_cons, List.length_append, List.length_map,
      List.length_cons, List.length_nil]
  · exact fun i hi => build_getD_succ date year email query rag_context h i hi
  · intro i r hi hr
    rw [build_getD_succ date year email query rag_context h i hi]
    show ((h.getD i defaultChat).role).getD "user" = r
    rw [hr]
    rfl
  · unfold build_initial_messages
    rw [List.getLastD_eq_getLast?, List.getLast?_concat]
    rfl
  · intro hrag
    subst hrag
    rfl

/-- C9 witness: a one-entry history with role assistant lands at position
one with its role and content intact, the first message is the system
prompt carrying the literal marker (the context list being empty), and
the last message is the user query. -/
theorem C9_prompt_builder_witness :
    (build_initial_messages "2025-10-12" "2025" "corp@x.io" "hi" [] [ChatMsg.mk (some "assistant") (some "hello")]).getD 1 defaultMsg =
      convHist ([ChatMsg.mk (some "assistant") (some "hello")].getD 0 defaultChat) ∧
    ((build_initial_messages "2025-10-12" "2025" "corp@x.io" "hi" [] [ChatMsg.mk (some "assistant") (some "hello")]).getD 1 defaultMsg).role = "assistant" ∧
    ((build_initial_messages "2025-10-12" "2025" "corp@x.io" "hi" [] [ChatMsg.mk (some "assistant") (some "hello")]).getD 0 defaultMsg).content =
      some (system_prompt "2025-10-12" "2025" "corp@x.io" noContextMarker) :=
  ⟨(C9_prompt_builder "2025-10-12" "2025" "corp@x.io" "hi" [] [ChatMsg.mk (some "assistant") (some "hello")]).2.2.1 0 (by decide),
   (C9_prompt_builder "2025-10-12" "2025" "corp@x.io" "hi" [] [ChatMsg.mk (some "assistant") (some "hello")]).2.2.2.1 0 "assistant" (by decide) rfl,
   (C9_prompt_builder "2025-10-12" "2025" "corp@x.io" "hi" [] [ChatMsg.mk (some "assistant") (some "hello")]).2.2.2.2.2 rfl⟩

/-- The value of `iteration` at the end of the loop (for a fault, when the
exception happened): the number of CALLING states entered. -/
def loopIter : LoopOut → Nat
  | .done _ it _ _ => it
  | .fault _ it _ _ => it

def outCalls : LoopOut → List ToolCallRec
  | .done _ _ c _ => c
  | .fault _ _ c _ => c

def outResults : LoopOut → List ToolResultRec
  | .done _ _ _ r => r
  | .fault _ _ _ r => r

lemma agentLoop_zero (env : Env) (iteration : Nat) (msgs : List Msg)
    (calls : List ToolCallRec) (results : List ToolResultRec) :
    agentLoop env 0 iteration msgs calls results = .done none iteration calls results := rfl

lemma agentLoop_succ_err (env : Env) (fuel iteration : Nat) (msgs : List Msg)
    (calls : List ToolCallRec) (results : List ToolResultRec) (e : String)
    (h : env.llm iteration = .error e) :
    agentLoop env (fuel + 1) iteration msgs calls results =
      .fault e (iteration + 1) calls results := by
  rw [agentLoop, h]

lemma agentLoop_succ_none (env : Env) (fuel iteration : Nat) (msgs : List Msg)
    (calls : List ToolCallRec) (results : List ToolResultRec) (resp : LLMResponse)
    (h : env.llm iteration = .ok resp) (ht : resp.tool_calls = none) :
    agentLoop env (fuel + 1) iteration msgs calls results =
      .done resp.content (iteration + 1) calls results := by
  rw [agentLoop, h]
  simp only [ht]

lemma agentLoop_succ_emptyTools (env : Env) (fuel iteration : Nat) (msgs : List Msg)
    (calls : List ToolCallRec) (results : List ToolResultRec) (resp : LLMResponse)
    (h : env.llm iteration = .ok resp) (ht : resp.tool_calls = some []) :
    agentLoop env (fuel + 1) iteration msgs calls results =
      .done resp.content (iteration + 1) calls results := by
  rw [agentLoop, h]
  simp only [ht]

lemma agentLoop_succ_toolErr (env : Env) (fuel iteration : Nat) (msgs : List Msg)
    (calls : List ToolCallRec) (results : List ToolResultRec) (resp : LLMResponse)
    (tc : ToolCall) (tcs : List ToolCall) (e : String) (c2 : List ToolCallRec)
    (r2 : List ToolResultRec)
    (h : env.llm iteration = .ok resp) (ht : resp.tool_calls = some (tc :: tcs))
    (hex : execCalls env (tc :: tcs) calls results msgs = .error (e, c2, r2)) :
    agentLoop env (fuel + 1) iteration msgs calls results =
      .fault e (iteration + 1) c2 r2 := by
  rw [agentLoop, h]
  simp only [ht, hex]

lemma agentLoop_succ_toolOk (env : Env) (fuel iteration : Nat) (msgs : List Msg)
    (calls : List ToolCallRec) (results : List ToolResultRec) (resp : LLMResponse)
    (tc : ToolCall) (tcs : List ToolCall) (c2 : List ToolCallRec)
    (r2 : List ToolResultRec) (m2 : List Msg)
    (h : env.llm iteration = .ok resp) (ht : resp.tool_calls = some (tc :: tcs))
    (hex : execCalls env (tc :: tcs) calls results msgs = .ok (c2, r2, m2)) :
    agentLoop env (fuel + 1) iteration msgs calls results =
      agentLoop env fuel (iteration + 1) m2 c2 r2 := by
  rw [agentLoop, h]
  simp only [ht, hex]

lemma agentLoop_iter_le (env : Env) :
    ∀ (fuel iteration : Nat) (msgs : List Msg) (calls : List ToolCallRec)
      (results : List ToolResultRec),
      loopIter (agentLoop env fuel iteration msgs calls results) ≤ iteration + fuel := by
  intro fuel
  induction fuel with
  | zero => intro it msgs calls results; simp [agentLoop_zero, loopIter]
  | succ fuel ih =>
    intro it msgs calls results
    cases hllm : env.llm it with
    | error e =>
      rw [agentLoop_succ_err env fuel it msgs calls results e hllm]
      simp [loopIter]
    | ok resp =>
      cases htc : resp.tool_calls with
      | none =>
        rw [agentLoop_succ_none env fuel it msgs calls results resp hllm htc]
        simp [loopIter]
      | some tcs =>
        cases tcs with
        | nil =>
          rw [agentLoop_succ_emptyTools env fuel it msgs calls results resp hllm htc]
          simp [loopIter]
        | cons tc rest =>
          cases hex : execCalls env (tc :: rest) calls results msgs with
          | error p =>
            rcases p with ⟨e, c2, r2⟩
            rw [agentLoop_succ_toolErr env fuel it msgs calls results resp tc rest e c2 r2
              hllm htc hex]
            simp [loopIter]
          | ok p =>
            rcases p with ⟨c2, r2, m2⟩
            rw [agentLoop_succ_toolOk env fuel it msgs calls results resp tc rest c2 r2 m2
              hllm htc hex]
            have := ih (it + 1) m2 c2 r2
            omega

lemma execCalls_ok_of (env : Env)
    (Hparse : ∀ s, ∃ m, env.parseJson s = .ok m)
    (Hexec : ∀ n a, ∃ r, env.execTool n a = .ok r) :
    ∀ (tcs : List ToolCall) (calls : List ToolCallRec) (results : List ToolResultRec)
      (msgs : List Msg),
      ∃ c2 r2 m2, execCalls env tcs calls results msgs = .ok (c2, r2, m2) := by
  intro tcs
  induction tcs with
  | nil => intro c r m; exact ⟨c, r, m, rfl⟩
  | cons tc rest ih =>
    intro c r m
    obtain ⟨args, hargs⟩ := Hparse tc.function.arguments
    obtain ⟨res, hres⟩ := Hexec tc.function.name args
    simp only [execCalls, hargs, hres]
    exact ih _ _ _

lemma agentLoop_alltools (env : Env)
    (Hllm : ∀ k, ∃ resp tc tcs, env.llm k = .ok resp ∧ resp.tool_calls = some (tc :: tcs))
    (Hparse : ∀ s, ∃ m, env.parseJson s = .ok m)
    (Hexec : ∀ n a, ∃ r, env.execTool n a = .ok r) :
    ∀ (fuel iteration : Nat) (msgs : List Msg) (calls : List ToolCallRec)
      (results : List ToolResultRec),
      ∃ c2 r2, agentLoop env fuel iteration msgs calls results =
        .done none (iteration + fuel) c2 r2 := by
  intro fuel
  induction fuel with
  | zero => intro it msgs c r; exact ⟨c, r, rfl⟩
  | succ fuel ih =>
    intro it msgs c r
    obtain ⟨resp, tc, tcs, hllm, htc⟩ := Hllm it
    obtain ⟨c2, r2, m2, hex⟩ := execCalls_ok_of env Hparse Hexec (tc :: tcs) c r msgs
    obtain ⟨c3, r3, h3⟩ := ih (it + 1) m2 c2 r2
    refine ⟨c3, r3, ?_⟩
    rw [agentLoop_succ_toolOk env fuel it msgs c r resp tc tcs c2 r2 m2 hllm htc hex,
      show it + (fuel + 1) = it + 1 + fuel by omega]
    exact h3

/-- Positional alignment of the invocation and outcome records. -/
def alignedRec (calls : List ToolCallRec) (results : List ToolResultRec) : Prop :=
  results.map (fun r => r.call_id) = calls.map (fun c => c.call_id) ∧
  results.map (fun r => r.tool_name) = calls.map (fun c => c.tool_name)

lemma execCalls_align (env : Env)
    (Hexec : ∀ n a, ∃ r, env.execTool n a = .ok r) :
    ∀ (tcs : List ToolCall) (calls : List ToolCallRec) (results : List ToolResultRec)
      (msgs : List Msg), alignedRec calls results →
      (∀ c2 r2 m2, execCalls env tcs calls results msgs = .ok (c2, r2, m2) →
        alignedRec c2 r2) ∧
      (∀ e c2 r2, execCalls env tcs calls results msgs = .error (e, c2, r2) →
        alignedRec c2 r2) := by
  intro tcs
  induction tcs with
  | nil =>
    intro c r m hal
    constructor
    · intro c2 r2 m2 h
      rw [execCalls] at h
      cases h
      exact hal
    · intro e c2 r2 h
      simp [execCalls] at h
  | cons tc rest ih =>
    intro c r m hal
    cases hargs : env.parseJson tc.function.arguments with
    | error e0 =>
      constructor
      · intro c2 r2 m2 h
        simp [execCalls, hargs] at h
      · intro e c2 r2 h
        simp only [execCalls, hargs, Except.error.injEq, Prod.mk.injEq] at h
        obtain ⟨-, hc, hr⟩ := h
        rw [← hc, ← hr]
        exact hal
    | ok args =>
      obtain ⟨res, hres⟩ := Hexec tc.function.name args
      have hal2 : alignedRec (c ++ [⟨tc.function.name, args, tc.id⟩])
          (r ++ [⟨tc.id, tc.function.name, res⟩]) := by
        obtain ⟨h1, h2⟩ := hal
        constructor <;> simp [h1, h2]
      have hrec := ih (c ++ [⟨tc.function.name, args, tc.id⟩])
        (r ++ [⟨tc.id, tc.function.name, res⟩])
        (m ++ [assistantToolMsg tc, toolResultMsg tc.id res]) hal2
      constructor
      · intro c2 r2 m2 h
        simp only [execCalls, hargs, hres] at h
        exact hrec.1 _ _ _ h
      · intro e c2 r2 h
        simp only [execCalls, hargs, hres] at h
        exact hrec.2 _ _ _ h

lemma agentLoop_align (env : Env)
    (Hexec : ∀ n a, ∃ r, env.execTool n a = .ok r) :
    ∀ (fuel iteration : Nat) (msgs : List Msg) (calls : List ToolCallRec)
      (results : List ToolResultRec), alignedRec calls results →
      alignedRec (outCalls (agentLoop env fuel iteration msgs calls results))
        (outResults (agentLoop env fuel iteration msgs calls results)) := by
  intro fuel
  induction fuel with
  | zero => intro it msgs c r hal; simpa [agentLoop_zero, outCalls, outResults] using hal
  | succ fuel ih =>
    intro it msgs c r hal
    cases hllm : env.llm it with
    | error e =>
      rw [agentLoop_succ_err env fuel it msgs c r e hllm]
      simpa [outCalls, outResults] using hal
    | ok resp =>
      cases htc : resp.tool_calls with
      | none =>
        rw [agentLoop_succ_none env fuel it msgs c r resp hllm htc]
        simpa [outCalls, outResults] using hal
      | some tcs =>
        cases tcs with
        | nil =>
          rw [agentLoop_succ_emptyTools env fuel it msgs c r resp hllm htc]
          simpa [outCalls, outResults] using hal
        | cons tc rest =>
          cases hex : execCalls env (tc :: rest) c r msgs with
          | error p =>
            rcases p with ⟨e, c2, r2⟩
            rw [agentLoop_succ_toolErr env fuel it msgs c r resp tc rest e c2 r2 hllm htc hex]
            simpa [outCalls, outResults] using
              (execCalls_align env Hexec (tc :: rest) c r msgs hal).2 e c2 r2 hex
          | ok p =>
            rcases p with ⟨c2, r2, m2⟩
            rw [agentLoop_succ_toolOk env fuel it msgs c r resp tc rest c2 r2 m2 hllm htc hex]
            exact ih (it + 1) m2 c2 r2
              ((execCalls_align env Hexec (tc :: rest) c r msgs hal).1 c2 r2 m2 hex)

lemma pyOr_ne_empty (o : Option String) (d : String) (hd : d ≠ "") : pyOr o d ≠ "" := by
  cases o with
  | none => simpa [pyOr] using hd
  | some s =>
    by_cases hs : s = ""
    · simp only [pyOr, hs, if_pos]
      exact hd
    · simp only [pyOr, hs, if_neg]
      exact hs

lemma errorText_ne_empty : ∀ e : String, errorTextHead ++ e ≠ "" := by
  intro e h
  have hlen := congrArg String.length h
  rw [String.length_append] at hlen
  have h1 : 0 < errorTextHead.length := by decide
  have h2 : ("" : String).length = 0 := rfl
  omega

lemma process_query_text_ne :
    ∀ (env : Env) (query : String) (chat_history : Option (List ChatMsg))
      (top_k max_iterations : Nat),
      (process_query env query chat_history top_k max_iterations).text ≠ "" := by
  intro env q hist tk mi
  cases hr : process_queryRun env q hist tk mi with
  | done fr it c r =>
    simp only [process_query, hr]
    exact pyOr_ne_empty fr _ (by decide)
  | fault e it c r =>
    simp only [process_query, hr]
    exact errorText_ne_empty e

/-- C1: for every environment, query, history, top_k and max_iterations
the run terminates with at most `max_iterations` CALLING states (both the
instrumented count and the reported `debug.iterations` are bounded), and
when the provider requests tools on every turn — with the registry and
argument parsing honouring their never-raise contract — the run ends
exactly at the bound with the non-empty generic fallback text. -/
theorem C1_termination_bound :
    ∀ (env : Env) (query : String) (chat_history : Option (List ChatMsg))
      (top_k max_iterations : Nat),
      callingCount env query chat_history top_k max_iterations ≤ max_iterations ∧
      (process_query env query chat_history top_k max_iterations).debug.iterations ≤
        max_iterations ∧
      ((∀ k, ∃ resp tc tcs, env.llm k = .ok resp ∧ resp.tool_calls = some (tc :: tcs)) →
        (∀ s, ∃ m, env.parseJson s = .ok m) →
        (∀ n a, ∃ r, env.execTool n a = .ok r) →
        (process_query env query chat_history top_k max_iterations).text = fallbackText ∧
        fallbackText ≠ "" ∧
        callingCount env query chat_history top_k max_iterations = max_iterations) := by
  intro env q hist tk mi
  have hle : loopIter (process_queryRun env q hist tk mi) ≤ mi := by
    simpa [process_queryRun] using
      agentLoop_iter_le env mi 0 (build_initial_messages env.currentDate env.currentYear
        env.corpEmail q (get_rag_context env q tk) hist) [] []
  refine ⟨?_, ?_, ?_⟩
  · cases hr : process_queryRun env q hist tk mi with
    | done fr it c r =>
      rw [hr] at hle
      simpa [callingCount, hr, loopIter] using hle
    | fault e it c r =>
      rw [hr] at hle
      simpa [callingCount, hr, loopIter] using hle
  · cases hr : process_queryRun env q hist tk mi with
    | done fr it c r =>
      rw [hr] at hle
      simp only [loopIter] at hle
      simpa [process_query, hr] using hle
    | fault e it c r =>
      simp [process_query, hr]
  · intro Hllm Hparse Hexec
    obtain ⟨c2, r2, hdone⟩ := agentLoop_alltools env Hllm Hparse Hexec mi 0
      (build_initial_messages env.currentDate env.currentYear env.corpEmail q
        (get_rag_context env q tk) hist) [] []
    have hrun : process_queryRun env q hist tk mi = .done none (0 + mi) c2 r2 := hdone
    refine ⟨?_, by decide, ?_⟩
    · simp [process_query, hrun, pyOr]
    · simp [callingCount, hrun]

/-- An environment whose provider requests one tool call on every turn. -/
def c1Env : Env :=
  { embed := fun _ => .ok 0
    vectorSearch := fun _ _ => .ok []
    llm := fun _ => .ok ⟨none, some [⟨"id1", ⟨"toolA", "x"⟩⟩]⟩
    execTool := fun _ _ => .ok ⟨true, some [], none⟩
    parseJson := fun _ => .ok []
    currentDate := "2025-10-12"
    currentYear := "2025"
    corpEmail := "corp@x.io" }

/-- C1 witness: with a provider that always requests tools, three allowed
iterations are all used and the run ends with the generic fallback text. -/
theorem C1_termination_bound_witness :
    (process_query c1Env "q" none 6 3).text = fallbackText ∧
    fallbackText ≠ "" ∧
    callingCount c1Env "q" none 6 3 = 3 :=
  (C1_termination_bound c1Env "q" none 6 3).2.2
    (fun _ => ⟨⟨none, some [⟨"id1", ⟨"toolA", "x"⟩⟩]⟩, ⟨"id1", ⟨"toolA", "x"⟩⟩, [], rfl, rfl⟩)
    (fun _ => ⟨[], rfl⟩)
    (fun _ _ => ⟨⟨true, some [], none⟩, rfl⟩)

/-- C2: when the Tool Registry always returns a result and never raises,
the returned AgentResult has as many tool results as tool invocations and
the records agree positionally on call_id and tool_name. -/
theorem C2_tool_records_aligned :
    ∀ (env : Env) (query : String) (chat_history : Option (List ChatMsg))
      (top_k max_iterations : Nat),
      (∀ n a, ∃ r, env.execTool n a = .ok r) →
      (process_query env query chat_history top_k max_iterations).tool_calls.length =
        (process_query env query chat_history top_k max_iterations).tool_results.length ∧
      (process_query env query chat_history top_k max_iterations).tool_results.map
          (fun r => r.call_id) =
        (process_query env query chat_history top_k max_iterations).tool_calls.map
          (fun c => c.call_id) ∧
      (process_query env query chat_history top_k max_iterations).tool_results.map
          (fun r => r.tool_name) =
        (process_query env query chat_history top_k max_iterations).tool_calls.map
          (fun c => c.tool_name) := by
  intro env q hist tk mi Hexec
  have hal : alignedRec (outCalls (process_queryRun env q hist tk mi))
      (outResults (process_queryRun env q hist tk mi)) :=
    agentLoop_align env Hexec mi 0 (build_initial_messages env.currentDate env.currentYear
      env.corpEmail q (get_rag_context env q tk) hist) [] [] ⟨rfl, rfl⟩
  cases hr : process_queryRun env q hist tk mi with
  | done fr it c r =>
    rw [hr] at hal
    simp only [outCalls, outResults] at hal
    obtain ⟨h1, h2⟩ := hal
    have hlen : c.length = r.length := by
      have := congrArg List.length h1
      simpa using this.symm
    exact ⟨by simp [process_query, hr]; exact hlen,
      by simp [process_query, hr]; exact h1,
      by simp [process_query, hr]; exact h2⟩
  | fault e it c r =>
    rw [hr] at hal
    simp only [outCalls, outResults] at hal
    obtain ⟨h1, h2⟩ := hal
    have hlen : c.length = r.length := by
      have := congrArg List.length h1
      simpa using this.symm
    exact ⟨by simp [process_query, hr]; exact hlen,
      by simp [process_query, hr]; exact h1,
      by simp [process_query, hr]; exact h2⟩

/-- An environment with one tool-calling turn followed by a text turn. -/
def c2Env : Env :=
  { embed := fun _ => .ok 0
    vectorSearch := fun _ _ => .ok []
    llm := fun k =>
      if k = 0 then .ok ⟨none, some [⟨"call-1", ⟨"send_email", "x"⟩⟩]⟩
      else .ok ⟨some "done", none⟩
    execTool := fun _ _ => .ok ⟨true, some [], none⟩
    parseJson := fun _ => .ok []
    currentDate := "2025-10-12"
    currentYear := "2025"
    corpEmail := "corp@x.io" }

/-- C2 witness: a run with one executed tool call keeps the records
aligned. -/
theorem C2_tool_records_aligned_witness :
    (process_query c2Env "q" none 6 5).tool_calls.length =
      (process_query c2Env "q" none 6 5).tool_results.length ∧
    (process_query c2Env "q" none 6 5).tool_results.map (fun r => r.call_id) =
      (process_query c2Env "q" none 6 5).tool_calls.map (fun c => c.call_id) ∧
    (process_query c2Env "q" none 6 5).tool_results.map (fun r => r.tool_name) =
      (process_query c2Env "q" none 6 5).tool_calls.map (fun c => c.tool_name) :=
  C2_tool_records_aligned c2Env "q" none 6 5 (fun _ _ => ⟨⟨true, some [], none⟩, rfl⟩)

/-- C3 (amended): `debug.iterations` equals the number of CALLING states
entered for every run that ends without an internal fault; on the error
path the code reports `iterations = 0` regardless of how many provider
calls were made. -/
theorem C3_iterations_amended :
    ∀ (env : Env) (query : String) (chat_history : Option (List ChatMsg))
      (top_k max_iterations : Nat),
      ((process_query env query chat_history top_k max_iterations).debug.error = none →
        (process_query env query chat_history top_k max_iterations).debug.iterations =
          callingCount env query chat_history top_k max_iterations) ∧
      (∀ e, (process_query env query chat_history top_k max_iterations).debug.error = some e →
        (process_query env query chat_history top_k max_iterations).debug.iterations = 0) := by
  intro env q hist tk mi
  cases hr : process_queryRun env q hist tk mi with
  | done fr it c r =>
    constructor
    · intro _
      simp [process_query, callingCount, hr]
    · intro e he
      simp [process_query, hr] at he
  | fault e it c r =>
    constructor
    · intro hnone
      simp [process_query, hr] at hnone
    · intro e2 he2
      simp [process_query, hr]

/-- An environment whose provider returns a tool call on the first turn
and raises on the second: the fault happens after one completed provider
call, with the CALLING state entered twice. -/
def c3Env : Env :=
  { embed := fun _ => .ok 0
    vectorSearch := fun _ _ => .ok []
    llm := fun k =>
      if k = 0 then .ok ⟨none, some [⟨"id1", ⟨"toolA", "x"⟩⟩]⟩
      else .error "provider down"
    execTool := fun _ _ => .ok ⟨true, some [], none⟩
    parseJson := fun _ => .ok []
    currentDate := "2025-10-12"
    currentYear := "2025"
    corpEmail := "corp@x.io" }

/-- C3 counterexample: a run that faults on its second provider call has
entered CALLING twice (one call completed), yet the returned
`debug.iterations` is the hard-coded 0 of the error path — not the number
of CALLING states entered. -/
theorem C3_iterations_counterexample :
    callingCount c3Env "q" none 6 5 = 2 ∧
    (process_query c3Env "q" none 6 5).debug.error = some "provider down" ∧
    (process_query c3Env "q" none 6 5).debug.iterations = 0 ∧
    (process_query c3Env "q" none 6 5).debug.iterations ≠
      callingCount c3Env "q" none 6 5 := by
  refine ⟨rfl, rfl, rfl, by decide⟩

/-- An environment whose provider answers with plain text at once. -/
def c3OkEnv : Env :=
  { embed := fun _ => .ok 0
    vectorSearch := fun _ _ => .ok []
    llm := fun _ => .ok ⟨some "hello", none⟩
    execTool := fun _ _ => .ok ⟨true, some [], none⟩
    parseJson := fun _ => .ok []
    currentDate := "2025-10-12"
    currentYear := "2025"
    corpEmail := "corp@x.io" }

/-- C3 witness: on a clean run the reported iterations equal the CALLING
count, and on the faulting run the error path reports 0. -/
theorem C3_iterations_amended_witness :
    (process_query c3OkEnv "q" none 6 5).debug.iterations =
      callingCount c3OkEnv "q" none 6 5 ∧
    (process_query c3Env "q" none 6 5).debug.iterations = 0 :=
  ⟨(C3_iterations_amended c3OkEnv "q" none 6 5).1 rfl,
   (C3_iterations_amended c3Env "q" none 6 5).2 "provider down" rfl⟩

/-- C4: if the embedding service or the vector search raises, the Context
Assembler returns the empty list instead of propagating, and the run
still completes with `debug.rag_context_used = false` and a non-empty
text. -/
theorem C4_retrieval_degrades :
    ∀ (env : Env) (query : String) (chat_history : Option (List ChatMsg))
      (top_k max_iterations : Nat),
      ((∃ e, env.embed query = .error e) ∨
        (∃ v e, env.embed query = .ok v ∧ env.vectorSearch v top_k = .error e)) →
      get_rag_context env query top_k = [] ∧
      (process_query env query chat_history top_k max_iterations).debug.rag_context_used =
        false ∧
      (process_query env query chat_history top_k max_iterations).text ≠ "" := by
  intro env q hist tk mi H
  have hrag : get_rag_context env q tk = [] := by
    rcases H with ⟨e, he⟩ | ⟨v, e, hv, hs⟩
    · rw [get_rag_context, he]
    · simp only [get_rag_context, hv, hs]
  refine ⟨hrag, ?_, process_query_text_ne env q hist tk mi⟩
  cases hr : process_queryRun env q hist tk mi with
  | done fr it c r => simp [process_query, hr, hrag]
  | fault e it c r => simp [process_query, hr]

/-- An environment whose embedding call raises. -/
def c4Env : Env :=
  { embed := fun _ => .error "embedding down"
    vectorSearch := fun _ _ => .ok [⟨"c1", "t", "s"⟩]
    llm := fun _ => .ok ⟨some "hello", none⟩
    execTool := fun _ _ => .ok ⟨true, some [], none⟩
    parseJson := fun _ => .ok []
    currentDate := "2025-10-12"
    currentYear := "2025"
    corpEmail := "corp@x.io" }

/-- C4 witness: with the embedding service raising, the context is empty,
`rag_context_used` is false and the text is non-empty. -/
theorem C4_retrieval_degrades_witness :
    get_rag_context c4Env "q" 6 = [] ∧
    (process_query c4Env "q" none 6 5).debug.rag_context_used = false ∧
    (process_query c4Env "q" none 6 5).text ≠ "" :=
  C4_retrieval_degrades c4Env "q" none 6 5 (Or.inl ⟨"embedding down", rfl⟩)

/-- C7: a run whose loop raises returns a well-formed AgentResult: the
text explains the failure, tool_calls/tool_results are exactly the
records accumulated before the fault, citations are empty, and the error
string is under `debug.error` — nothing is raised to the caller. -/
theorem C7_error_path :
    ∀ (env : Env) (query : String) (chat_history : Option (List ChatMsg))
      (top_k max_iterations : Nat) (e : String) (it : Nat)
      (calls : List ToolCallRec) (results : List ToolResultRec),
      process_queryRun env query chat_history top_k max_iterations =
        .fault e it calls results →
      (process_query env query chat_history top_k max_iterations).text =
        errorTextHead ++ e ∧
      (process_query env query chat_history top_k max_iterations).tool_calls = calls ∧
      (process_query env query chat_history top_k max_iterations).tool_results = results ∧
      (process_query env query chat_history top_k max_iterations).citations = [] ∧
      (process_query env query chat_history top_k max_iterations).debug.error = some e := by
  intro env q hist tk mi e it calls results h
  simp [process_query, h]

/-- An environment whose provider raises on the first call. -/
def c7Env : Env :=
  { embed := fun _ => .ok 0
    vectorSearch := fun _ _ => .ok []
    llm := fun _ => .error "boom"
    execTool := fun _ _ => .ok ⟨true, some [], none⟩
    parseJson := fun _ => .ok []
    currentDate := "2025-10-12"
    currentYear := "2025"
    corpEmail := "corp@x.io" }

/-- C7 witness: a provider fault on the first call yields the error-shaped
result with empty records, empty citations and the error string. -/
theorem C7_error_path_witness :
    (process_query c7Env "q" none 6 5).text = errorTextHead ++ "boom" ∧
    (process_query c7Env "q" none 6 5).tool_calls = [] ∧
    (process_query c7Env "q" none 6 5).tool_results = [] ∧
    (process_query c7Env "q" none 6 5).citations = [] ∧
    (process_query c7Env "q" none 6 5).debug.error = some "boom" :=
  C7_error_path c7Env "q" none 6 5 "boom" 1 [] [] rfl

end ARag

